import Mathlib

/-
Verification development for the RGB-D TUM driver
(`Examples/RGB-D/rgbd_tum.cc`).

The driver has two functions:

* `ProcessImages(pSLAM, strAssociationFilename, strSequencePath)` — reads the
  association manifest with a `while (!f.eof()) { getline; if (!s.empty())
  { ss >> t >> sRGB >> t >> sD; push_back ... } }` loop, checks the image
  counts, and then iterates the frames: `imread` both images, return early if
  the RGB image is empty, call `pSLAM->TrackRGBD(imRGB, imD, tframe)`, and
  `break` if `waitKey(1)` returns ESC (27).

* `main(argc, argv)` — usage check (`argc != 5` → exit 1), constructs the
  `ORB_SLAM2::System`, spawns `ProcessImages` on a worker thread, runs
  `SLAM.RunViewer()` on the main thread, joins the worker, calls
  `SLAM.Shutdown()`, saves the two trajectory files, returns 0.

Modelling conventions:

* C++ `double` values are represented abstractly by the text of the token
  they were parsed from (no claim does arithmetic on timestamps); a failed
  numeric conversion stores `"0"` (C++11 `num_get` zero-on-failure) and the
  uninitialised `double t;` is `"undef"`.
* `stringstream` extraction is modelled at whitespace-token granularity.
  `isDoubleToken` recognises exactly the tokens that C++ `operator>>(double)`
  would consume in one piece (digits with at most one dot), so on such tokens
  the token-level model and the character-level stream agree.  Extraction
  semantics follow C++11: if the stream is already failed the target is
  untouched; if the sentry hits end-of-input the fail state is set and the
  target is untouched; if conversion fails the numeric target becomes 0.
* The manifest file is a list of newline-terminated lines.  A stream whose
  `open` failed has `failbit` set and `eofbit` clear; `getline` through a
  failed sentry does nothing (in particular it never sets `eofbit`), which is
  why the `while (!f.eof())` loop never terminates in that case.  The read
  loop is therefore given explicit fuel, and non-termination is expressed as
  `readLoop` returning `none` for every fuel.
* `cv::imread` and `cv::waitKey` are external; a `World` records which paths
  decode to an empty image and at which loop iterations ESC is observed.
* The two threads of `main` are modelled by an `Interleave` relation between
  the worker's event list and the viewer event; a completed run of `main` is
  a derivation of the `MainRun` relation.  A process execution that never
  terminates (worker stuck in the read loop) yields no `MainRun` result.
-/

namespace RgbdTum

/-- Whitespace as skipped by `operator>>` under the default locale. -/
def isWs (c : Char) : Bool :=
  c = ' ' || c = '\t' || c = '\n' || c = '\r'

/-- Split a character list into maximal non-whitespace runs; `cur` is the
reversed current run. -/
def tokenizeAux : List Char → List Char → List String
  | [], [] => []
  | [], cur => [String.mk cur.reverse]
  | c :: cs, cur =>
    if isWs c then
      match cur with
      | [] => tokenizeAux cs []
      | _ :: _ => String.mk cur.reverse :: tokenizeAux cs []
    else tokenizeAux cs (c :: cur)

/-- The whitespace-separated tokens of a line, in order. -/
def tokenize (s : String) : List String :=
  tokenizeAux s.data []

/-- Characters allowed in the decimal numerals we treat as doubles. -/
def isDoubleChar (c : Char) : Bool :=
  c.isDigit || c = '.'

/-- True iff C++ `operator>>(double)` would consume the whole token as one
valid numeral: it starts with a digit, contains only digits and dots, and has
at most one dot.  (A conservative under-approximation of the C++ grammar,
exact on TUM-style timestamps such as `1305031102.175304`.) -/
def isDoubleToken (s : String) : Bool :=
  match s.data with
  | [] => false
  | c :: cs =>
    c.isDigit && (c :: cs).all isDoubleChar &&
      decide ((c :: cs).countP (fun x => x = '.') ≤ 1)

/-- The state of the `stringstream` over one manifest line: the tokens not
yet consumed, and the fail flag. -/
structure TokStream where
  toks : List String
  failb : Bool
deriving DecidableEq

/-- Extraction `st >> (double) cur`, C++11 semantics.  On an already-failed stream the
value is untouched; if the sentry hits end-of-input the stream fails and the
value is untouched; if conversion fails the stream fails and the value is
zeroed; otherwise the token is consumed and becomes the value. -/
def extractDouble (st : TokStream) (cur : String) : TokStream × String :=
  if st.failb then (st, cur)
  else
    match st.toks with
    | [] => (⟨[], true⟩, cur)
    | tok :: rest =>
      if isDoubleToken tok then (⟨rest, false⟩, tok)
      else (⟨tok :: rest, true⟩, "0")

/-- Extraction `st >> (string) cur`: on an already-failed stream or at end-of-input the
value is untouched and the stream (stays) failed; otherwise the next token is
consumed into the value. -/
def extractString (st : TokStream) (cur : String) : TokStream × String :=
  if st.failb then (st, cur)
  else
    match st.toks with
    | [] => (⟨[], true⟩, cur)
    | tok :: rest => (⟨rest, false⟩, tok)

/-- The chain `ss >> t >> sRGB >> t >> sD` on the tokens of one line, with
`double t;` uninitialised (`"undef"`) and `string sRGB, sD;` empty.
Returns `(t, sRGB, sD)` as they stand after the four extractions — note that
`t` is the single variable written by both numeric extractions. -/
def parseTokens (toks : List String) : String × String × String :=
  let st0 : TokStream := ⟨toks, false⟩
  let p1 := extractDouble st0 "undef"
  let p2 := extractString p1.1 ""
  let p3 := extractDouble p2.1 p1.2
  let p4 := extractString p3.1 ""
  (p3.2, p2.2, p4.2)

/-- Parse one non-empty manifest line exactly as the body of the read loop
does. -/
def parseAssocLine (s : String) : String × String × String :=
  parseTokens (tokenize s)

/-- The three parallel vectors built by the read loop. -/
structure Vectors where
  vTimestamps : List String
  vstrImageFilenamesRGB : List String
  vstrImageFilenamesD : List String
deriving DecidableEq

/-- The three `push_back` calls for one non-empty line. -/
def pushLine (seqPath : String) (v : Vectors) (s : String) : Vectors :=
  let r := parseAssocLine s
  ⟨v.vTimestamps ++ [r.1],
   v.vstrImageFilenamesRGB ++ [seqPath ++ "/" ++ r.2.1],
   v.vstrImageFilenamesD ++ [seqPath ++ "/" ++ r.2.2]⟩

/-- The vectors produced from a list of manifest lines in file order: every
non-empty line contributes exactly one entry to each vector. -/
def parseLines (seqPath : String) : List String → Vectors
  | [] => ⟨[], [], []⟩
  | l :: ls =>
    let rest := parseLines seqPath ls
    if l.isEmpty then rest
    else
      let r := parseAssocLine l
      ⟨r.1 :: rest.vTimestamps,
       (seqPath ++ "/" ++ r.2.1) :: rest.vstrImageFilenamesRGB,
       (seqPath ++ "/" ++ r.2.2) :: rest.vstrImageFilenamesD⟩

/-- The `ifstream` over the association file: the lines not yet read (the
file is modelled as a list of newline-terminated lines), the eof flag and the
fail flag.  A successfully opened file starts with both flags clear; a failed
`open` leaves `failb` set and `eofb` clear. -/
structure AssocStream where
  rest : List String
  eofb : Bool
  failb : Bool
deriving DecidableEq

/-- Model of `getline(f, s)` where `s` is a freshly default-constructed string: if the
sentry fails (fail or eof already set) nothing is read — in particular
`eofb` is never set this way; if no characters remain, `eofbit` and `failbit`
are set; otherwise one line is consumed. -/
def getlineS : AssocStream → AssocStream × String
  | ⟨rest, eofb, failb⟩ =>
    if failb then (⟨rest, eofb, failb⟩, "")
    else if eofb then (⟨rest, eofb, true⟩, "")
    else
      match rest with
      | [] => (⟨[], true, true⟩, "")
      | l :: ls => (⟨ls, eofb, failb⟩, l)

/-- The mutable state of the association-reading loop. -/
structure LoaderState where
  stream : AssocStream
  vecs : Vectors
deriving DecidableEq

/-- One iteration of the read loop body: `getline(fAssociation, s);
if (!s.empty()) { parse and push_back }`. -/
def loadBody (seqPath : String) (st : LoaderState) : LoaderState :=
  let p := getlineS st.stream
  if p.2.isEmpty then ⟨p.1, st.vecs⟩
  else ⟨p.1, pushLine seqPath st.vecs p.2⟩

/-- The `while (!fAssociation.eof())` loop, with fuel: `none` means the loop
has not terminated within `fuel` iterations.  (For a stream whose `open`
failed it returns `none` for every fuel — the real loop never terminates.) -/
def readLoop (seqPath : String) : Nat → LoaderState → Option LoaderState
  | 0, _ => none
  | fuel + 1, st =>
    if st.stream.eofb then some st
    else readLoop seqPath fuel (loadBody seqPath st)

/-- The external world seen by the frame loop: which paths `cv::imread`
decodes to an empty `cv::Mat`, and at which loop iterations
`cv::waitKey(1)` returns ESC (27). -/
structure World where
  imEmpty : String → Bool
  escAt : Nat → Bool

/-- Indexing `v[i]` on a `std::vector`, with an explicit default for the (never
taken, see the in-bounds theorem) out-of-range case.  A separate definition
keeps simp from normalising the indexing away. -/
def nthD (l : List String) (i : Nat) (d : String) : String :=
  l.getD i d

/-- Observable events of the frame loop, tagged with the frame index `ni`:
the two `imread` calls, the `TrackRGBD` ingestion call (carrying the `tframe`
value passed), and the `waitKey` poll. -/
inductive Ev where
  | decodeRGB : Nat → Ev
  | decodeD : Nat → Ev
  | ingest : Nat → String → Ev
  | poll : Nat → Ev
deriving DecidableEq

/-- How `ProcessImages` ended (which diagnostic branch, if any, fired). -/
inductive PIExit where
  | noImages : PIExit
  | mismatch : PIExit
  | decodeFail : String → PIExit
  | finished : PIExit
deriving DecidableEq

/-- The frame loop from `ni` with `k` iterations remaining
(`k = nImages - ni`).  Each iteration: decode both images, return early with
the diagnostic if the RGB image is empty, ingest the frame, poll `waitKey`
and `break` on ESC. -/
def frameLoopAux (W : World) (rgb dep ts : List String) :
    Nat → Nat → List Ev × PIExit
  | _, 0 => ([], PIExit.finished)
  | ni, k + 1 =>
    let rpath := nthD rgb ni ""
    if W.imEmpty rpath then
      ([Ev.decodeRGB ni, Ev.decodeD ni], PIExit.decodeFail rpath)
    else if W.escAt ni then
      ([Ev.decodeRGB ni, Ev.decodeD ni, Ev.ingest ni (nthD ts ni "undef"),
        Ev.poll ni], PIExit.finished)
    else
      let r := frameLoopAux W rgb dep ts (ni + 1) k
      (Ev.decodeRGB ni :: Ev.decodeD ni :: Ev.ingest ni (nthD ts ni "undef") ::
        Ev.poll ni :: r.1, r.2)

/-- The part of `ProcessImages` after the read loop: the zero-frames check,
the count-mismatch check, and the frame loop over `nImages =
vstrImageFilenamesRGB.size()` frames. -/
def runFrames (W : World) (rgb dep ts : List String) : List Ev × PIExit :=
  if rgb.isEmpty then ([], PIExit.noImages)
  else if dep.length ≠ rgb.length then ([], PIExit.mismatch)
  else frameLoopAux W rgb dep ts 0 rgb.length

/-- Model of `ProcessImages` on a successfully opened manifest given as its list of
lines (the read loop terminates and produces `parseLines`; see
`readLoop_eq_parseLines`). -/
def processImages (lines : List String) (seqPath : String) (W : World) :
    List Ev × PIExit :=
  let v := parseLines seqPath lines
  runFrames W v.vstrImageFilenamesRGB v.vstrImageFilenamesD v.vTimestamps

/-- The stream state right after `fAssociation.open(...)`: `some lines` is a
successful open, `none` a failed one (failbit set, eofbit clear). -/
def initialStream : Option (List String) → AssocStream
  | some lines => ⟨lines, false, false⟩
  | none => ⟨[], false, true⟩

/-- All of `ProcessImages`, with explicit fuel for the read loop: `none`
means the function never got past the read loop within `fuel` iterations. -/
def processImagesFuel (openResult : Option (List String)) (seqPath : String)
    (W : World) (fuel : Nat) : Option (List Ev × PIExit) :=
  match readLoop seqPath fuel ⟨initialStream openResult, ⟨[], [], []⟩⟩ with
  | none => none
  | some st =>
    some (runFrames W st.vecs.vstrImageFilenamesRGB st.vecs.vstrImageFilenamesD
      st.vecs.vTimestamps)

/-- Observable events of `main`: system construction, worker spawn, the
blocking `RunViewer` call, the join, `Shutdown`, the two trajectory saves,
and the worker thread's own events. -/
inductive MEv where
  | construct : MEv
  | spawnWorker : MEv
  | viewerRun : MEv
  | join : MEv
  | shutdown : MEv
  | saveTraj : MEv
  | saveKFTraj : MEv
  | worker : Ev → MEv
deriving DecidableEq

/-- The outcome of a completed run of `main`: exit code, whether the usage
message was printed, and the global event trace. -/
structure MainResult where
  exitCode : Nat
  usageMsg : Bool
  trace : List MEv
deriving DecidableEq

/-- Relation `Interleave xs ys zs`: `zs` is an order-preserving merge of `xs` and
`ys` — the possible global orders of two concurrent threads' events. -/
inductive Interleave : List MEv → List MEv → List MEv → Prop where
  | nil : Interleave [] [] []
  | left : ∀ x xs ys zs, Interleave xs ys zs → Interleave (x :: xs) ys (x :: zs)
  | right : ∀ y xs ys zs, Interleave xs ys zs → Interleave xs (y :: ys) (y :: zs)

/-- A completed run of `main`.  `argv` includes the program name (so the
usage check is `argv.length ≠ 5`), `fs` maps a path to the content of the
file at that path (`none` = cannot be opened).  The worker thread's events
and the main thread's `RunViewer` call interleave arbitrarily; construction
precedes the spawn, and join, shutdown and the two saves follow, in that
order.  A process that never terminates (e.g. the worker stuck in the read
loop) admits no `MainRun` result. -/
inductive MainRun (fs : String → Option (List String)) (W : World)
    (argv : List String) : MainResult → Prop where
  | usage : argv.length ≠ 5 → MainRun fs W argv ⟨1, true, []⟩
  | ok : ∀ (fuel : Nat) (evs : List Ev) (ex : PIExit) (merged : List MEv),
      argv.length = 5 →
      processImagesFuel (fs (argv.getD 4 "")) (argv.getD 3 "") W fuel =
        some (evs, ex) →
      Interleave (evs.map MEv.worker) [MEv.viewerRun] merged →
      MainRun fs W argv
        ⟨0, false, MEv.construct :: MEv.spawnWorker ::
          (merged ++ [MEv.join, MEv.shutdown, MEv.saveTraj, MEv.saveKFTraj])⟩

/-- Spec-side shape of `k` consecutive trouble-free frame iterations
starting at index `ni`. -/
def cleanRunEvs (ts : List String) : Nat → Nat → List Ev
  | _, 0 => []
  | ni, k + 1 =>
    Ev.decodeRGB ni :: Ev.decodeD ni :: Ev.ingest ni (nthD ts ni "undef") ::
      Ev.poll ni :: cleanRunEvs ts (ni + 1) k

/-- The indices of the ingestion (`TrackRGBD`) calls in a trace, in order. -/
def ingestIndices (evs : List Ev) : List Nat :=
  evs.filterMap (fun e =>
    match e with
    | Ev.ingest i _ => some i
    | _ => none)

/-- The indices of the `waitKey` polls in a trace, in order. -/
def pollIndices (evs : List Ev) : List Nat :=
  evs.filterMap (fun e =>
    match e with
    | Ev.poll i => some i
    | _ => none)

/-- The frame index an event belongs to. -/
def evIdx : Ev → Nat
  | Ev.decodeRGB i => i
  | Ev.decodeD i => i
  | Ev.ingest i _ => i
  | Ev.poll i => i

/-- Pointwise concatenation of two `Vectors`. -/
def appendVecs (v w : Vectors) : Vectors :=
  ⟨v.vTimestamps ++ w.vTimestamps,
   v.vstrImageFilenamesRGB ++ w.vstrImageFilenamesRGB,
   v.vstrImageFilenamesD ++ w.vstrImageFilenamesD⟩

theorem appendVecs_nil (v : Vectors) : appendVecs v ⟨[], [], []⟩ = v := by
  cases v; simp [appendVecs]

theorem nil_appendVecs (v : Vectors) : appendVecs ⟨[], [], []⟩ v = v := by
  cases v; simp [appendVecs]

/-- Once the read loop has terminated, giving it more fuel does not change
the result. -/
theorem readLoop_mono (seq : String) :
    ∀ (fuel g : Nat) (st out : LoaderState), readLoop seq fuel st = some out →
      fuel ≤ g → readLoop seq g st = some out := by
  intro fuel
  induction fuel with
  | zero => intro g st out h _; simp [readLoop] at h
  | succ f ih =>
    intro g st out h hle
    cases g with
    | zero => omega
    | succ g' =>
      simp only [readLoop] at h ⊢
      by_cases he : st.stream.eofb
      · simpa [he] using h
      · simp only [he, if_false] at h ⊢
        exact ih g' _ out h (by omega)

/-- On a stream whose `open` failed (failbit set, eofbit clear) the read
loop never terminates: `getline` through the failed sentry reads nothing and
never sets eofbit, so `while (!eof())` spins forever. -/
theorem readLoop_failed_open (seq : String) :
    ∀ (fuel : Nat) (rest : List String) (v : Vectors),
      readLoop seq fuel ⟨⟨rest, false, true⟩, v⟩ = none := by
  intro fuel
  induction fuel with
  | zero => intro rest v; rfl
  | succ f ih =>
    intro rest v
    simp only [readLoop, loadBody, getlineS]
    simpa using ih rest v

/-- The read loop on a successfully opened file terminates after reading
every line plus one final failing `getline`, and appends exactly the
`parseLines` descriptors to the vectors. -/
theorem readLoop_eq_parseLines (seq : String) :
    ∀ (lines : List String) (v : Vectors),
      readLoop seq (lines.length + 2) ⟨⟨lines, false, false⟩, v⟩ =
        some ⟨⟨[], true, true⟩, appendVecs v (parseLines seq lines)⟩ := by
  intro lines
  induction lines with
  | nil =>
    intro v
    simp [readLoop, loadBody, getlineS, parseLines, appendVecs_nil,
      show "".isEmpty = true from rfl]
  | cons l ls ih =>
    intro v
    have hstep : readLoop seq (ls.length + 3) ⟨⟨l :: ls, false, false⟩, v⟩ =
        readLoop seq (ls.length + 2)
          (loadBody seq ⟨⟨l :: ls, false, false⟩, v⟩) := by
      simp [readLoop]
    by_cases he : l.isEmpty
    · have hbody : loadBody seq ⟨⟨l :: ls, false, false⟩, v⟩ =
          ⟨⟨ls, false, false⟩, v⟩ := by
        simp [loadBody, getlineS, he]
      have : readLoop seq ((l :: ls).length + 2) ⟨⟨l :: ls, false, false⟩, v⟩ =
          some ⟨⟨[], true, true⟩, appendVecs v (parseLines seq ls)⟩ := by
        simpa [List.length_cons, hbody, hstep] using ih v
      simpa [parseLines, he] using this
    · have hbody : loadBody seq ⟨⟨l :: ls, false, false⟩, v⟩ =
          ⟨⟨ls, false, false⟩, pushLine seq v l⟩ := by
        simp [loadBody, getlineS, he]
      have := ih (pushLine seq v l)
      have hres : readLoop seq ((l :: ls).length + 2)
          ⟨⟨l :: ls, false, false⟩, v⟩ =
          some ⟨⟨[], true, true⟩,
            appendVecs (pushLine seq v l) (parseLines seq ls)⟩ := by
        simpa [List.length_cons, hbody, hstep] using this
      have happ : appendVecs (pushLine seq v l) (parseLines seq ls) =
          appendVecs v (parseLines seq (l :: ls)) := by
        simp [appendVecs, pushLine, parseLines, he]
      rw [hres, happ]

/-- Whenever `processImagesFuel` on a successfully opened manifest returns a
result, it is the canonical `processImages` result. -/
theorem processImagesFuel_some (lines : List String) (seq : String)
    (W : World) (fuel : Nat) (r : List Ev × PIExit)
    (h : processImagesFuel (some lines) seq W fuel = some r) :
    r = processImages lines seq W := by
  unfold processImagesFuel at h
  cases hr : readLoop seq fuel ⟨initialStream (some lines), ⟨[], [], []⟩⟩ with
  | none => rw [hr] at h; cases h
  | some st =>
    rw [hr] at h
    have h1 : readLoop seq (fuel + (lines.length + 2))
        ⟨initialStream (some lines), ⟨[], [], []⟩⟩ = some st :=
      readLoop_mono seq fuel _ _ st hr (by omega)
    have h2 : readLoop seq (fuel + (lines.length + 2))
        ⟨initialStream (some lines), ⟨[], [], []⟩⟩ =
        some ⟨⟨[], true, true⟩, appendVecs ⟨[], [], []⟩ (parseLines seq lines)⟩ :=
      readLoop_mono seq (lines.length + 2) _ _ _
        (readLoop_eq_parseLines seq lines ⟨[], [], []⟩) (by omega)
    rw [h1] at h2
    have hst : st = ⟨⟨[], true, true⟩, parseLines seq lines⟩ := by
      have := Option.some.inj h2
      rw [this, nil_appendVecs]
    subst hst
    simp only [Option.some.inj h.symm, processImages]

/-- On an unopenable manifest `processImagesFuel` never returns. -/
theorem processImagesFuel_none (seq : String) (W : World) (fuel : Nat) :
    processImagesFuel none seq W fuel = none := by
  unfold processImagesFuel
  rw [show initialStream none = ⟨[], false, true⟩ from rfl,
    readLoop_failed_open seq fuel [] ⟨[], [], []⟩]

/-- Every element of an interleaving comes from one of the two threads. -/
theorem Interleave.mem_or {xs ys zs : List MEv} (h : Interleave xs ys zs) :
    ∀ z ∈ zs, z ∈ xs ∨ z ∈ ys := by
  induction h with
  | nil => intro z hz; cases hz
  | left x xs ys zs _ ih =>
    intro z hz
    rcases List.mem_cons.mp hz with hz | hz
    · exact Or.inl (hz ▸ List.mem_cons_self x xs)
    · rcases ih z hz with h | h
      · exact Or.inl (List.mem_cons_of_mem x h)
      · exact Or.inr h
  | right y xs ys zs _ ih =>
    intro z hz
    rcases List.mem_cons.mp hz with hz | hz
    · exact Or.inr (hz ▸ List.mem_cons_self y ys)
    · rcases ih z hz with h | h
      · exact Or.inl h
      · exact Or.inr (List.mem_cons_of_mem y h)

theorem ingestIndices_cleanRunEvs (ts : List String) :
    ∀ (k ni : Nat), ingestIndices (cleanRunEvs ts ni k) = List.range' ni k := by
  intro k
  induction k with
  | zero => intro ni; rfl
  | succ k ih =>
    intro ni
    simp [cleanRunEvs, ingestIndices, List.range'_succ] at ih ⊢
    exact ih (ni + 1)

theorem pollIndices_cleanRunEvs (ts : List String) :
    ∀ (k ni : Nat), pollIndices (cleanRunEvs ts ni k) = List.range' ni k := by
  intro k
  induction k with
  | zero => intro ni; rfl
  | succ k ih =>
    intro ni
    simp [cleanRunEvs, pollIndices, List.range'_succ] at ih ⊢
    exact ih (ni + 1)

/-- Every event of a clean stretch of iterations carries an index inside the
stretch. -/
theorem mem_cleanRunEvs_idx (ts : List String) :
    ∀ (k ni : Nat) (e : Ev), e ∈ cleanRunEvs ts ni k →
      ni ≤ evIdx e ∧ evIdx e < ni + k := by
  intro k
  induction k with
  | zero => intro ni e he; cases he
  | succ k ih =>
    intro ni e he
    simp only [cleanRunEvs, List.mem_cons] at he
    rcases he with rfl | rfl | rfl | rfl | he
    · exact ⟨le_refl ni, by simp only [evIdx]; omega⟩
    · exact ⟨le_refl ni, by simp only [evIdx]; omega⟩
    · exact ⟨le_refl ni, by simp only [evIdx]; omega⟩
    · exact ⟨le_refl ni, by simp only [evIdx]; omega⟩
    · have := ih (ni + 1) e he
      omega

theorem ingestIndices_append (a b : List Ev) :
    ingestIndices (a ++ b) = ingestIndices a ++ ingestIndices b := by
  simp [ingestIndices, List.filterMap_append]

theorem ingest_mem_ingestIndices (i : Nat) (t : String) (evs : List Ev)
    (h : Ev.ingest i t ∈ evs) : i ∈ ingestIndices evs := by
  simp only [ingestIndices, List.mem_filterMap]
  exact ⟨Ev.ingest i t, h, rfl⟩

/-- A stretch of iterations in which no RGB decode fails and no ESC is seen
runs to its end and produces exactly the clean trace. -/
theorem frameLoopAux_clean (W : World) (rgb dep ts : List String) :
    ∀ (k ni : Nat),
      (∀ i, ni ≤ i → i < ni + k → W.imEmpty (nthD rgb i "") = false) →
      (∀ i, ni ≤ i → i < ni + k → W.escAt i = false) →
      frameLoopAux W rgb dep ts ni k = (cleanRunEvs ts ni k, PIExit.finished) := by
  intro k
  induction k with
  | zero => intro ni _ _; rfl
  | succ k ih =>
    intro ni hok hesc
    have h1 : W.imEmpty (nthD rgb ni "") = false :=
      hok ni (le_refl ni) (by omega)
    have h2 : W.escAt ni = false := hesc ni (le_refl ni) (by omega)
    have h3 := ih (ni + 1)
      (fun i hi1 hi2 => hok i (by omega) (by omega))
      (fun i hi1 hi2 => hesc i (by omega) (by omega))
    simp [frameLoopAux, h1, h2, h3, cleanRunEvs]

/-- If the first RGB decode failure is at frame `m` (and no ESC is seen
before it), the loop produces the clean trace up to `m`, the two decode
events of frame `m`, and stops with the decode diagnostic: frames before `m`
are ingested, frame `m` and later never are. -/
theorem frameLoopAux_decodeFail (W : World) (rgb dep ts : List String) :
    ∀ (k ni m : Nat), ni ≤ m → m < ni + k →
      (∀ i, ni ≤ i → i < m → W.imEmpty (nthD rgb i "") = false) →
      (∀ i, ni ≤ i → i < m → W.escAt i = false) →
      W.imEmpty (nthD rgb m "") = true →
      frameLoopAux W rgb dep ts ni k =
        (cleanRunEvs ts ni (m - ni) ++ [Ev.decodeRGB m, Ev.decodeD m],
          PIExit.decodeFail (nthD rgb m "")) := by
  intro k
  induction k with
  | zero => intro ni m h1 h2 _ _ _; omega
  | succ k ih =>
    intro ni m h1 h2 hok hesc hbad
    by_cases hm : ni = m
    · subst hm
      simp [frameLoopAux, hbad, Nat.sub_self, cleanRunEvs]
    · have hlt : ni < m := by omega
      have e1 : W.imEmpty (nthD rgb ni "") = false :=
        hok ni (le_refl ni) hlt
      have e2 : W.escAt ni = false := hesc ni (le_refl ni) hlt
      have h3 := ih (ni + 1) m (by omega) (by omega)
        (fun i hi1 hi2 => hok i (by omega) hi2)
        (fun i hi1 hi2 => hesc i (by omega) hi2) hbad
      have hsub : m - ni = (m - (ni + 1)) + 1 := by omega
      simp [frameLoopAux, e1, e2, h3, hsub, cleanRunEvs]

/-- If the first ESC is observed at frame `m` (and every RGB decode up to `m`
succeeds), the loop ingests frames `0..m` of the stretch and breaks: the
trace is the clean trace through frame `m` and nothing beyond. -/
theorem frameLoopAux_esc (W : World) (rgb dep ts : List String) :
    ∀ (k ni m : Nat), ni ≤ m → m < ni + k →
      (∀ i, ni ≤ i → i ≤ m → W.imEmpty (nthD rgb i "") = false) →
      (∀ i, ni ≤ i → i < m → W.escAt i = false) →
      W.escAt m = true →
      frameLoopAux W rgb dep ts ni k =
        (cleanRunEvs ts ni (m + 1 - ni), PIExit.finished) := by
  intro k
  induction k with
  | zero => intro ni m h1 h2 _ _ _; omega
  | succ k ih =>
    intro ni m h1 h2 hok hesc hstop
    by_cases hm : ni = m
    · subst hm
      have e1 : W.imEmpty (nthD rgb ni "") = false :=
        hok ni (le_refl ni) (le_refl ni)
      simp [frameLoopAux, e1, hstop, Nat.add_sub_cancel_left, cleanRunEvs]
    · have hlt : ni < m := by omega
      have e1 : W.imEmpty (nthD rgb ni "") = false :=
        hok ni (le_refl ni) (by omega)
      have e2 : W.escAt ni = false := hesc ni (le_refl ni) hlt
      have h3 := ih (ni + 1) m (by omega) (by omega)
        (fun i hi1 hi2 => hok i (by omega) hi2)
        (fun i hi1 hi2 => hesc i (by omega) hi2) hstop
      have hsub : m + 1 - ni = (m + 1 - (ni + 1)) + 1 := by omega
      simp [frameLoopAux, e1, e2, h3, hsub, cleanRunEvs]

/-- With a non-empty RGB vector and matching depth count, `runFrames` is the
frame loop over all `nImages` frames. -/
theorem runFrames_eq_loop (W : World) (rgb dep ts : List String)
    (h1 : rgb ≠ []) (h2 : dep.length = rgb.length) :
    runFrames W rgb dep ts = frameLoopAux W rgb dep ts 0 rgb.length := by
  obtain ⟨a, as, rfl⟩ := List.exists_cons_of_ne_nil h1
  simp [runFrames, h2]

/-- A world in which every image decodes and ESC is never pressed. -/
def wAll : World :=
  ⟨fun _ => false, fun _ => false⟩

/-- A filesystem in which every path opens as an empty file. -/
def fsEmptyFile : String → Option (List String) :=
  fun _ => some []

/-- A filesystem in which no path can be opened. -/
def fsNoFile : String → Option (List String) :=
  fun _ => none

/-- A correct command line: program name plus the four positional
arguments. -/
def argvGood : List String :=
  ["rgbd_tum", "voc.txt", "settings.yaml", "/seq", "/assoc.txt"]

/-- The frame loop itself never produces the count-mismatch diagnostic. -/
theorem frameLoopAux_ne_mismatch (W : World) (rgb dep ts : List String) :
    ∀ (k ni : Nat), (frameLoopAux W rgb dep ts ni k).2 ≠ PIExit.mismatch := by
  intro k
  induction k with
  | zero => intro ni h; cases h
  | succ k ih =>
    intro ni
    simp only [frameLoopAux]
    by_cases h1 : W.imEmpty (nthD rgb ni "")
    · simp [h1]
    · by_cases h2 : W.escAt ni
      · simp [h1, h2]
      · simpa [h1, h2] using ih (ni + 1)

/-- A manifest consisting only of empty lines produces empty vectors. -/
theorem parseLines_all_empty (seqPath : String) :
    ∀ (lines : List String), (∀ l ∈ lines, l.isEmpty = true) →
      parseLines seqPath lines = ⟨[], [], []⟩ := by
  intro lines
  induction lines with
  | nil => intro _; rfl
  | cons l ls ih =>
    intro h
    have hl : l.isEmpty = true := h l (List.mem_cons_self l ls)
    have hls := ih (fun x hx => h x (List.mem_cons_of_mem l hx))
    simp [parseLines, hl, hls]

/-- Every event interleaved from the worker's events and the viewer call is
a worker event or the viewer call. -/
theorem mem_merged (evs : List Ev) (merged : List MEv)
    (h : Interleave (evs.map MEv.worker) [MEv.viewerRun] merged) :
    ∀ z ∈ merged, (∃ w, w ∈ evs ∧ z = MEv.worker w) ∨ z = MEv.viewerRun := by
  intro z hz
  rcases h.mem_or z hz with hx | hx
  · rcases List.mem_map.mp hx with ⟨w, hw, rfl⟩
    exact Or.inl ⟨w, hw, rfl⟩
  · simpa using Or.inr (List.mem_singleton.mp hx)

/-- The completed run of `main` on `argvGood` over an empty manifest: the
worker is spawned, loads zero frames, ingests nothing and returns; the main
thread finishes the viewer, joins, shuts down and saves both trajectories. -/
def resEmptyRun : MainResult :=
  ⟨0, false, [MEv.construct, MEv.spawnWorker, MEv.viewerRun, MEv.join,
    MEv.shutdown, MEv.saveTraj, MEv.saveKFTraj]⟩

theorem mainRun_emptyFile : MainRun fsEmptyFile wAll argvGood resEmptyRun := by
  have hp : processImagesFuel (fsEmptyFile (argvGood.getD 4 ""))
      (argvGood.getD 3 "") wAll 2 = some ([], PIExit.noImages) := by decide
  have hI : Interleave (([] : List Ev).map MEv.worker) [MEv.viewerRun]
      [MEv.viewerRun] :=
    Interleave.right MEv.viewerRun [] [] [] Interleave.nil
  exact MainRun.ok 2 [] PIExit.noImages [MEv.viewerRun] (by decide) hp hI

/-- C4 counterexample: for the well-formed manifest line
`1.0 rgb/1.png 2.5 depth/1.png` the stored timestamp is `2.5` — the second
timestamp field — and not the first one `1.0`, contrary to the claim that
the first timestamp is stored and the second discarded. -/
theorem c4_cex_second_timestamp_stored :
    (parseLines "/seq" ["1.0 rgb/1.png 2.5 depth/1.png"]).vTimestamps =
      ["2.5"] ∧ ("2.5" : String) ≠ "1.0" := by
  decide

/-- C4 (amended): for every manifest line `<ts1> <color> <ts2> <depth>`
(both timestamp tokens numeric), the FrameDescriptor stores the SECOND
timestamp field: `ss >> t >> sRGB >> t >> sD` reads the first timestamp into
`t` and then overwrites `t` with the second before `push_back(t)`.  It is
the first timestamp that is read and discarded. -/
theorem c4_second_timestamp_is_stored (t1 c t2 d : String)
    (h1 : isDoubleToken t1 = true) (h2 : isDoubleToken t2 = true) :
    parseTokens [t1, c, t2, d] = (t2, c, d) := by
  simp [parseTokens, extractDouble, extractString, h1, h2]

theorem c4_second_timestamp_is_stored_witness :
    parseTokens ["1.0", "rgb/1.png", "2.5", "depth/1.png"] =
      ("2.5", "rgb/1.png", "depth/1.png") :=
  c4_second_timestamp_is_stored "1.0" "rgb/1.png" "2.5" "depth/1.png"
    (by decide) (by decide)

/-- C5 counterexample: a manifest with one well-formed line and one
two-token line yields TWO descriptors — the code appends one per non-empty
line no matter how many tokens were extracted — not the one descriptor the
claim predicts for a skipped malformed line. -/
theorem c5_cex_short_line_counted :
    (parseLines "/seq"
      ["1.0 rgb/1.png 1.0 depth/1.png", "2.0 rgb/2.png"]
      ).vstrImageFilenamesRGB.length = 2 ∧
    ¬ ((parseLines "/seq"
      ["1.0 rgb/1.png 1.0 depth/1.png", "2.0 rgb/2.png"]
      ).vstrImageFilenamesRGB.length = 1) := by
  decide

/-- C5 (amended): a non-empty manifest line with insufficient tokens is NOT
skipped: the `push_back` calls run unconditionally for every non-empty line,
so the loader produces exactly one descriptor per non-empty line (with the
fields whose extraction failed left at their previous values), and no error
is raised.  In particular a two-token line `<ts> <color>` yields the
descriptor `(ts, color, "")`. -/
theorem c5_short_line_appended (seqPath : String) (lines : List String)
    (t c : String) (ht : isDoubleToken t = true) :
    (parseLines seqPath lines).vstrImageFilenamesRGB.length =
      (lines.filter (fun l => !l.isEmpty)).length ∧
    parseTokens [t, c] = (t, c, "") := by
  constructor
  · induction lines with
    | nil => rfl
    | cons l ls ih =>
      by_cases he : l.isEmpty <;>
        simp [parseLines, List.filter_cons, he, ih]
  · simp [parseTokens, extractDouble, extractString, ht]

theorem c5_short_line_appended_witness :
    (parseLines "/seq" ["1.0 a 1.0 b", "", "2.0 c"]
      ).vstrImageFilenamesRGB.length =
      ((["1.0 a 1.0 b", "", "2.0 c"] : List String).filter
        (fun l => !l.isEmpty)).length ∧
    parseTokens ["2.0", "c"] = ("2.0", "c", "") :=
  c5_short_line_appended "/seq" ["1.0 a 1.0 b", "", "2.0 c"] "2.0" "c"
    (by decide)

/-- C10: every non-empty line appends exactly one element to each of the
three vectors, so after the read loop the timestamp and depth vectors have
the same length as the RGB vector, the `Number of RGB and depth images do
not match` branch can never fire, and every index access
`vstrImageFilenamesRGB[ni]`, `vstrImageFilenamesD[ni]`, `vTimestamps[ni]`
with `ni < nImages` is in bounds. -/
theorem c10_vectors_aligned (seqPath : String) (lines : List String) :
    (parseLines seqPath lines).vTimestamps.length =
      (parseLines seqPath lines).vstrImageFilenamesRGB.length ∧
    (parseLines seqPath lines).vstrImageFilenamesD.length =
      (parseLines seqPath lines).vstrImageFilenamesRGB.length ∧
    (∀ W : World, (processImages lines seqPath W).2 ≠ PIExit.mismatch) ∧
    (∀ ni, ni < (parseLines seqPath lines).vstrImageFilenamesRGB.length →
      ni < (parseLines seqPath lines).vTimestamps.length ∧
      ni < (parseLines seqPath lines).vstrImageFilenamesD.length) := by
  have hlen : ∀ ls : List String,
      (parseLines seqPath ls).vTimestamps.length =
        (parseLines seqPath ls).vstrImageFilenamesRGB.length ∧
      (parseLines seqPath ls).vstrImageFilenamesD.length =
        (parseLines seqPath ls).vstrImageFilenamesRGB.length := by
    intro ls
    induction ls with
    | nil => exact ⟨rfl, rfl⟩
    | cons l t ih =>
      by_cases he : l.isEmpty <;> simp [parseLines, he, ih.1, ih.2]
  refine ⟨(hlen lines).1, (hlen lines).2, ?_, ?_⟩
  · intro W
    unfold processImages
    by_cases hne : (parseLines seqPath lines).vstrImageFilenamesRGB = []
    · simp [runFrames, hne]
    · rw [runFrames_eq_loop W _ _ _ hne (hlen lines).2]
      exact frameLoopAux_ne_mismatch W _ _ _ _ 0
  · intro ni hni
    have h1 := (hlen lines).1
    have h2 := (hlen lines).2
    omega

theorem c10_vectors_aligned_witness :
    0 < (parseLines "/seq" ["1.0 a 1.0 b"]).vstrImageFilenamesRGB.length ∧
    0 < (parseLines "/seq" ["1.0 a 1.0 b"]).vTimestamps.length ∧
    0 < (parseLines "/seq" ["1.0 a 1.0 b"]).vstrImageFilenamesD.length :=
  ⟨by decide, (c10_vectors_aligned "/seq" ["1.0 a 1.0 b"]).2.2.2 0 (by decide)⟩

/-- C7: if every image of every descriptor decodes and ESC is never seen,
the run ingests each descriptor exactly once, in manifest order — the trace
is the clean per-frame sequence (decode RGB, decode depth, ingest, poll for
each index in turn), so the ingestion calls are `0, 1, ..., n-1` with no
index repeated, omitted or out of order; the trace is produced by the single
sequential worker loop, so no two ingestion calls overlap. -/
theorem c7_all_frames_ingested (W : World) (rgb dep ts : List String)
    (hne : rgb ≠ []) (hlen : dep.length = rgb.length)
    (hrgb : ∀ i, i < rgb.length → W.imEmpty (nthD rgb i "") = false)
    (_hdep : ∀ i, i < rgb.length → W.imEmpty (nthD dep i "") = false)
    (hesc : ∀ i, i < rgb.length → W.escAt i = false) :
    (runFrames W rgb dep ts).1 = cleanRunEvs ts 0 rgb.length ∧
    ingestIndices (runFrames W rgb dep ts).1 = List.range rgb.length ∧
    (runFrames W rgb dep ts).2 = PIExit.finished := by
  have h := frameLoopAux_clean W rgb dep ts rgb.length 0
    (fun i _ h2 => hrgb i (by omega)) (fun i _ h2 => hesc i (by omega))
  rw [runFrames_eq_loop W rgb dep ts hne hlen, h]
  refine ⟨rfl, ?_, rfl⟩
  rw [ingestIndices_cleanRunEvs, List.range_eq_range']

theorem c7_all_frames_ingested_witness :
    ingestIndices (runFrames wAll ["/seq/r0", "/seq/r1"] ["/seq/d0", "/seq/d1"]
      ["1.0", "2.0"]).1 = List.range 2 ∧
    (runFrames wAll ["/seq/r0", "/seq/r1"] ["/seq/d0", "/seq/d1"]
      ["1.0", "2.0"]).2 = PIExit.finished :=
  ⟨(c7_all_frames_ingested wAll ["/seq/r0", "/seq/r1"] ["/seq/d0", "/seq/d1"]
      ["1.0", "2.0"] (by decide) (by decide) (fun _ _ => rfl) (fun _ _ => rfl)
      (fun _ _ => rfl)).2.1,
   (c7_all_frames_ingested wAll ["/seq/r0", "/seq/r1"] ["/seq/d0", "/seq/d1"]
      ["1.0", "2.0"] (by decide) (by decide) (fun _ _ => rfl) (fun _ _ => rfl)
      (fun _ _ => rfl)).2.2⟩

/-- C8: the loop polls `waitKey` exactly once per ingested frame,
immediately after the `TrackRGBD` call (the trace is the clean per-frame
sequence, in which each `poll i` directly follows `ingest i`, and the poll
indices coincide with the ingestion indices); if ESC is first seen after
ingesting frame `k` (0-indexed here), the loop breaks: every event of the
trace belongs to a frame index `≤ k`, so neither decode nor ingestion
happens for frame `k+1` or later. -/
theorem c8_abort_stops_loop (W : World) (rgb dep ts : List String) (k : Nat)
    (hne : rgb ≠ []) (hlen : dep.length = rgb.length) (hk : k < rgb.length)
    (hrgb : ∀ i, i ≤ k → W.imEmpty (nthD rgb i "") = false)
    (hesc : ∀ i, i < k → W.escAt i = false)
    (habort : W.escAt k = true) :
    (runFrames W rgb dep ts).1 = cleanRunEvs ts 0 (k + 1) ∧
    ingestIndices (runFrames W rgb dep ts).1 = List.range (k + 1) ∧
    pollIndices (runFrames W rgb dep ts).1 =
      ingestIndices (runFrames W rgb dep ts).1 ∧
    (∀ e ∈ (runFrames W rgb dep ts).1, evIdx e ≤ k) ∧
    (runFrames W rgb dep ts).2 = PIExit.finished := by
  have h := frameLoopAux_esc W rgb dep ts rgb.length 0 k (by omega) (by omega)
    (fun i _ h2 => hrgb i h2) (fun i _ h2 => hesc i h2) habort
  rw [runFrames_eq_loop W rgb dep ts hne hlen, h]
  refine ⟨by simp, ?_, ?_, ?_, rfl⟩
  · rw [show k + 1 - 0 = k + 1 from rfl, ingestIndices_cleanRunEvs,
      List.range_eq_range']
  · rw [pollIndices_cleanRunEvs, ingestIndices_cleanRunEvs]
  · intro e he
    have := mem_cleanRunEvs_idx ts (k + 1 - 0) 0 e (by simpa using he)
    omega

/-- A world in which ESC is seen exactly at frame 0 and every image
decodes. -/
def wEsc0 : World :=
  ⟨fun _ => false, fun i => i == 0⟩

theorem c8_abort_stops_loop_witness :
    wEsc0.escAt 0 = true ∧
    ingestIndices (runFrames wEsc0 ["/seq/r0", "/seq/r1"]
      ["/seq/d0", "/seq/d1"] ["1.0", "2.0"]).1 = List.range 1 ∧
    (∀ e ∈ (runFrames wEsc0 ["/seq/r0", "/seq/r1"] ["/seq/d0", "/seq/d1"]
      ["1.0", "2.0"]).1, evIdx e ≤ 0) :=
  ⟨rfl,
   (c8_abort_stops_loop wEsc0 ["/seq/r0", "/seq/r1"] ["/seq/d0", "/seq/d1"]
      ["1.0", "2.0"] 0 (by decide) (by decide) (by decide)
      (fun i _ => rfl) (fun i hi => absurd hi (Nat.not_lt_zero i)) rfl).2.1,
   (c8_abort_stops_loop wEsc0 ["/seq/r0", "/seq/r1"] ["/seq/d0", "/seq/d1"]
      ["1.0", "2.0"] 0 (by decide) (by decide) (by decide)
      (fun i _ => rfl) (fun i hi => absurd hi (Nat.not_lt_zero i)) rfl).2.2.2.1⟩

/-- A world in which exactly the depth image `/seq/d0` fails to decode. -/
def wDepthBad : World :=
  ⟨fun p => p == "/seq/d0", fun _ => false⟩

/-- C3 counterexample: on the one-line manifest `1.0 r0 1.0 d0`, the depth
image of frame 0 fails to decode, yet the ingestion call for frame 0 is
still made (with the empty depth buffer): the code only tests
`imRGB.empty()`, never `imD.empty()`, so a depth decode failure does not
terminate the loop. -/
theorem c3_cex_depth_failure_still_ingested :
    wDepthBad.imEmpty "/seq/d0" = true ∧
    Ev.ingest 0 "1.0" ∈ (processImages ["1.0 r0 1.0 d0"] "/seq" wDepthBad).1 := by
  decide

/-- C3 (amended): only a COLOR image decode failure terminates the loop: if
the first RGB decode failure is at frame `k` (0-indexed; no prior ESC), the
ingestion calls made are exactly those for frames `0..k-1`, and no ingestion
call is made for frame `k` or later.  Depth decode results are never
checked, so a depth-only failure does not stop the loop (see the
counterexample). -/
theorem c3_rgb_failure_stops_loop (W : World) (rgb dep ts : List String)
    (k : Nat) (hne : rgb ≠ []) (hlen : dep.length = rgb.length)
    (hk : k < rgb.length)
    (hok : ∀ i, i < k → W.imEmpty (nthD rgb i "") = false)
    (hesc : ∀ i, i < k → W.escAt i = false)
    (hbad : W.imEmpty (nthD rgb k "") = true) :
    (runFrames W rgb dep ts).1 =
      cleanRunEvs ts 0 k ++ [Ev.decodeRGB k, Ev.decodeD k] ∧
    ingestIndices (runFrames W rgb dep ts).1 = List.range k ∧
    (∀ i t, Ev.ingest i t ∈ (runFrames W rgb dep ts).1 → i < k) ∧
    (runFrames W rgb dep ts).2 = PIExit.decodeFail (nthD rgb k "") := by
  have h := frameLoopAux_decodeFail W rgb dep ts rgb.length 0 k (by omega)
    (by omega) (fun i _ h2 => hok i h2) (fun i _ h2 => hesc i h2) hbad
  simp only [Nat.sub_zero] at h
  rw [runFrames_eq_loop W rgb dep ts hne hlen, h]
  have e1 : ingestIndices [Ev.decodeRGB k, Ev.decodeD k] = [] := rfl
  have hidx : ingestIndices
      (cleanRunEvs ts 0 k ++ [Ev.decodeRGB k, Ev.decodeD k]) =
      List.range k := by
    rw [ingestIndices_append, e1, List.append_nil,
      ingestIndices_cleanRunEvs, List.range_eq_range']
  refine ⟨by simp, hidx, ?_, rfl⟩
  intro i t hm
  have := ingest_mem_ingestIndices i t _ hm
  rw [hidx] at this
  exact List.mem_range.mp this

/-- A world in which exactly the color image `/seq/r1` fails to decode. -/
def wRgbBad1 : World :=
  ⟨fun p => p == "/seq/r1", fun _ => false⟩

theorem c3_rgb_failure_stops_loop_witness :
    ingestIndices (runFrames wRgbBad1 ["/seq/r0", "/seq/r1"]
      ["/seq/d0", "/seq/d1"] ["1.0", "2.0"]).1 = List.range 1 ∧
    (runFrames wRgbBad1 ["/seq/r0", "/seq/r1"] ["/seq/d0", "/seq/d1"]
      ["1.0", "2.0"]).2 = PIExit.decodeFail (nthD ["/seq/r0", "/seq/r1"] 1 "") :=
  ⟨(c3_rgb_failure_stops_loop wRgbBad1 ["/seq/r0", "/seq/r1"]
      ["/seq/d0", "/seq/d1"] ["1.0", "2.0"] 1 (by decide) (by decide)
      (by decide) (fun i hi => by interval_cases i; rfl)
      (fun i _ => rfl) rfl).2.1,
   (c3_rgb_failure_stops_loop wRgbBad1 ["/seq/r0", "/seq/r1"]
      ["/seq/d0", "/seq/d1"] ["1.0", "2.0"] 1 (by decide) (by decide)
      (by decide) (fun i hi => by interval_cases i; rfl)
      (fun i _ => rfl) rfl).2.2.2⟩

/-- C6 counterexample: with an unopenable manifest no error of any kind is
produced: `ProcessImages` never gets past its read loop (here: for the
concrete fuel 5, and `MainRun` admits no completed run at all on a correct
command line), so there is neither a `ManifestUnreadable` failure nor a
pre-thread abort — the thread is spawned and then spins forever. -/
theorem c6_cex_unreadable_no_error :
    processImagesFuel none "/seq" wAll 5 = none ∧
    ¬ ∃ r, MainRun fsNoFile wAll argvGood r := by
  refine ⟨processImagesFuel_none "/seq" wAll 5, ?_⟩
  rintro ⟨r, h⟩
  cases h with
  | usage h => exact h (by decide)
  | ok fuel evs ex merged h5 hp hI =>
    rw [show fsNoFile (argvGood.getD 4 "") = none from rfl,
      processImagesFuel_none] at hp
    cases hp

/-- C6 (amended): the code never checks whether the association file opened;
if it cannot be opened there is no `ManifestUnreadable` (or any other)
failure and nothing is detected before the thread start — the already-
spawned worker thread's `while (!eof())` loop never terminates (`getline`
through a failed stream never sets eofbit), so the read loop yields no
result for any fuel and the process never completes a run. -/
theorem c6_unreadable_manifest_hangs (seq : String) (W : World) (fuel : Nat)
    (fs : String → Option (List String)) (argv : List String)
    (h5 : argv.length = 5) (hfs : fs (argv.getD 4 "") = none) :
    processImagesFuel none seq W fuel = none ∧
    ∀ r, ¬ MainRun fs W argv r := by
  refine ⟨processImagesFuel_none seq W fuel, ?_⟩
  intro r h
  cases h with
  | usage h => exact h h5
  | ok fuel' evs ex merged h5' hp hI =>
    rw [hfs, processImagesFuel_none] at hp
    cases hp

theorem c6_unreadable_manifest_hangs_witness :
    processImagesFuel none "/seq" wAll 3 = none ∧
    ¬ MainRun fsNoFile wAll argvGood ⟨0, false, []⟩ :=
  ⟨(c6_unreadable_manifest_hangs "/seq" wAll 3 fsNoFile argvGood (by decide)
      rfl).1,
   (c6_unreadable_manifest_hangs "/seq" wAll 3 fsNoFile argvGood (by decide)
      rfl).2 ⟨0, false, []⟩⟩

/-- C1 counterexample: on a correct command line with an EMPTY manifest
(zero frames), a completed run exists whose trace contains the worker-thread
spawn and whose exit code is 0: the zero-frames condition is NOT detected
before the thread is spawned (the manifest is only read inside the worker),
and the run is not aborted as fatal. -/
theorem c1_cex_zero_frames_thread_spawned :
    MainRun fsEmptyFile wAll argvGood resEmptyRun ∧
    MEv.spawnWorker ∈ resEmptyRun.trace ∧
    resEmptyRun.exitCode = 0 := by
  exact ⟨mainRun_emptyFile, by decide, rfl⟩

/-- C1 (amended): the association manifest is loaded inside `ProcessImages`,
which runs on the worker thread, so a zero-frames manifest is detected only
AFTER the worker thread has been spawned.  The worker then returns without
a single ingestion call, and the run is not aborted: it completes normally
— shutdown and the exports still run and the exit code is 0. -/
theorem c1_zero_frames_detected_in_worker
    (fs : String → Option (List String)) (W : World) (argv : List String)
    (lines : List String) (r : MainResult) (h5 : argv.length = 5)
    (hfs : fs (argv.getD 4 "") = some lines)
    (hempty : ∀ l ∈ lines, l.isEmpty = true) (h : MainRun fs W argv r) :
    r.exitCode = 0 ∧ MEv.spawnWorker ∈ r.trace ∧ MEv.shutdown ∈ r.trace ∧
    ∀ i t, MEv.worker (Ev.ingest i t) ∉ r.trace := by
  cases h with
  | usage h => exact absurd h5 h
  | ok fuel evs ex merged h5' hp hI =>
    rw [hfs] at hp
    have hr := processImagesFuel_some lines _ W fuel (evs, ex) hp
    have hev : evs = [] := by
      have hpl := parseLines_all_empty (argv.getD 3 "") lines hempty
      have : processImages lines (argv.getD 3 "") W = ([], PIExit.noImages) := by
        unfold processImages
        rw [hpl]
        rfl
      rw [this] at hr
      exact congrArg Prod.fst hr
    subst hev
    refine ⟨rfl, ?_, ?_, ?_⟩
    · simp
    · simp
    · intro i t hmem
      simp only [List.mem_cons] at hmem
      rcases hmem with h | h | h
      · cases h
      · cases h
      · rcases List.mem_append.mp h with h | h
        · rcases mem_merged [] merged hI _ h with ⟨w, hw, _⟩ | h
          · cases hw
          · cases h
        · simp at h

theorem c1_zero_frames_detected_in_worker_witness :
    resEmptyRun.exitCode = 0 ∧ MEv.spawnWorker ∈ resEmptyRun.trace ∧
    MEv.shutdown ∈ resEmptyRun.trace ∧
    ∀ i t, MEv.worker (Ev.ingest i t) ∉ resEmptyRun.trace :=
  c1_zero_frames_detected_in_worker fsEmptyFile wAll argvGood [] resEmptyRun
    (by decide) rfl (fun l hl => absurd hl (List.not_mem_nil l))
    mainRun_emptyFile

/-- C2: in every completed run on a correct command line, `Shutdown` and the
two trajectory exports each occur exactly once, at the very end of the
trace, immediately after the join; everything before them — in particular
every worker-thread ingestion event — precedes the join, so no ingestion
call is concurrent with or after shutdown (join-before-shutdown is the
happens-before edge). -/
theorem c2_shutdown_once_after_join (fs : String → Option (List String))
    (W : World) (argv : List String) (r : MainResult)
    (h5 : argv.length = 5) (h : MainRun fs W argv r) :
    r.trace.count MEv.shutdown = 1 ∧
    r.trace.count MEv.saveTraj = 1 ∧
    r.trace.count MEv.saveKFTraj = 1 ∧
    ∃ pre, r.trace = pre ++ [MEv.join, MEv.shutdown, MEv.saveTraj,
        MEv.saveKFTraj] ∧
      (∀ i t, MEv.worker (Ev.ingest i t) ∈ r.trace →
        MEv.worker (Ev.ingest i t) ∈ pre) ∧
      MEv.join ∉ pre ∧ MEv.shutdown ∉ pre ∧ MEv.saveTraj ∉ pre ∧
      MEv.saveKFTraj ∉ pre := by
  cases h with
  | usage h => exact absurd h5 h
  | ok fuel evs ex merged h5' hp hI =>
    have hcls := mem_merged evs merged hI
    have hnm : ∀ z : MEv, z ∈ merged →
        z = MEv.join ∨ z = MEv.shutdown ∨ z = MEv.saveTraj ∨
          z = MEv.saveKFTraj → False := by
      intro z hz hor
      rcases hcls z hz with ⟨w, _, rfl⟩ | rfl
      · rcases hor with h | h | h | h <;> cases h
      · rcases hor with h | h | h | h <;> cases h
    have hpre : ∀ z : MEv,
        z ∈ (MEv.construct :: MEv.spawnWorker :: merged) →
        z = MEv.join ∨ z = MEv.shutdown ∨ z = MEv.saveTraj ∨
          z = MEv.saveKFTraj → False := by
      intro z hz hor
      rcases List.mem_cons.mp hz with rfl | hz
      · rcases hor with h | h | h | h <;> cases h
      · rcases List.mem_cons.mp hz with rfl | hz
        · rcases hor with h | h | h | h <;> cases h
        · exact hnm z hz hor
    have hsplit : MEv.construct :: MEv.spawnWorker ::
        (merged ++ [MEv.join, MEv.shutdown, MEv.saveTraj, MEv.saveKFTraj]) =
        (MEv.construct :: MEv.spawnWorker :: merged) ++
          [MEv.join, MEv.shutdown, MEv.saveTraj, MEv.saveKFTraj] := by
      simp
    refine ⟨?_, ?_, ?_,
      MEv.construct :: MEv.spawnWorker :: merged, hsplit, ?_, ?_, ?_, ?_, ?_⟩
    · rw [hsplit, List.count_append]
      rw [List.count_eq_zero.mpr
        (fun hmem => hpre MEv.shutdown hmem (Or.inr (Or.inl rfl)))]
      rfl
    · rw [hsplit, List.count_append]
      rw [List.count_eq_zero.mpr
        (fun hmem => hpre MEv.saveTraj hmem (Or.inr (Or.inr (Or.inl rfl))))]
      rfl
    · rw [hsplit, List.count_append]
      rw [List.count_eq_zero.mpr
        (fun hmem => hpre MEv.saveKFTraj hmem (Or.inr (Or.inr (Or.inr rfl))))]
      rfl
    · intro i t hmem
      rw [hsplit] at hmem
      rcases List.mem_append.mp hmem with h | h
      · exact h
      · simp at h
    · exact fun hmem => hpre MEv.join hmem (Or.inl rfl)
    · exact fun hmem => hpre MEv.shutdown hmem (Or.inr (Or.inl rfl))
    · exact fun hmem => hpre MEv.saveTraj hmem (Or.inr (Or.inr (Or.inl rfl)))
    · exact fun hmem => hpre MEv.saveKFTraj hmem (Or.inr (Or.inr (Or.inr rfl)))

theorem c2_shutdown_once_after_join_witness :
    resEmptyRun.trace.count MEv.shutdown = 1 ∧
    resEmptyRun.trace.count MEv.saveTraj = 1 ∧
    resEmptyRun.trace.count MEv.saveKFTraj = 1 :=
  ⟨(c2_shutdown_once_after_join fsEmptyFile wAll argvGood resEmptyRun
      (by decide) mainRun_emptyFile).1,
   (c2_shutdown_once_after_join fsEmptyFile wAll argvGood resEmptyRun
      (by decide) mainRun_emptyFile).2.1,
   (c2_shutdown_once_after_join fsEmptyFile wAll argvGood resEmptyRun
      (by decide) mainRun_emptyFile).2.2.1⟩

/-- C9: with an argument count other than the four positional arguments
(`argv.length ≠ 5` counting the program name) the process prints the usage
message and exits 1 — and that is the only possible outcome; every
completed run on a correct argument count exits 0 with no usage message,
whatever happened inside the worker (normal completion, user abort, decode
failure, zero frames). -/
theorem c9_exit_codes (fs : String → Option (List String)) (W : World)
    (argv : List String) :
    (argv.length ≠ 5 → MainRun fs W argv ⟨1, true, []⟩ ∧
      ∀ r, MainRun fs W argv r → r.exitCode = 1 ∧ r.usageMsg = true) ∧
    (argv.length = 5 → ∀ r, MainRun fs W argv r →
      r.exitCode = 0 ∧ r.usageMsg = false) := by
  constructor
  · intro h
    refine ⟨MainRun.usage h, ?_⟩
    intro r hr
    cases hr with
    | usage _ => exact ⟨rfl, rfl⟩
    | ok fuel evs ex merged h5 _ _ => exact absurd h5 h
  · intro h r hr
    cases hr with
    | usage h' => exact absurd h h'
    | ok fuel evs ex merged _ _ _ => exact ⟨rfl, rfl⟩

theorem c9_exit_codes_witness :
    MainRun fsEmptyFile wAll ["rgbd_tum"] ⟨1, true, []⟩ ∧
    resEmptyRun.exitCode = 0 ∧ resEmptyRun.usageMsg = false :=
  ⟨((c9_exit_codes fsEmptyFile wAll ["rgbd_tum"]).1 (by decide)).1,
   (c9_exit_codes fsEmptyFile wAll argvGood).2 (by decide) resEmptyRun
     mainRun_emptyFile⟩

end RgbdTum
